import Mathlib

/-!
Shallow embedding of the clang-format-launcher command-line tool
(src/unnamed/part_000, the current variant of src/src/index.ts).

The launcher wraps an external clang-format binary: it parses CLI flags,
loads a configuration record, lists the git-tracked files, filters them by
path rules, splits the result into batches of 30 and spawns the formatter
once per batch, and in verify mode finally checks `git status -s`.

The embedding below translates the pure decision logic of the source:
strings stay Lean `String`s (mirroring JavaScript strings), process
interactions (git, the formatter child processes, the binary resolution)
become explicit parameters carrying the observable result of each external
call, and `process.exit` becomes an `Option Nat` exit-code value.
-/

namespace ClangFormatLauncher

/-- CLI flag constants, verbatim from the source. -/
def VERIFY_FLAG : String := "-verify"

def RAW_FLAG : String := "-raw"

def VERBOSE_FLAG : String := "--verbose"

def HELP_FLAG : String := "--help"

def VERSION_FLAG : String := "--version"

/-- The configuration record (interface `Config` in the source).  In the
source every field is a string or string list with a built-in default, so
all fields are total here; JavaScript truthiness of `config.style` is the
test `style != ""`. -/
structure Config where
  includeEndsWith : List String
  excludePathContains : List String
  excludePathEndsWith : List String
  excludePathStartsWith : List String
  gitRoot : String
  style : String
deriving Repr, DecidableEq

/-- Bool test that `pre` is a prefix of `l` (character-by-character), used to
model where a JavaScript `String.prototype.indexOf` search can match. -/
def prefixMatches : List Char → List Char → Bool
  | [], _ => true
  | _ :: _, [] => false
  | a :: s, b :: t => a == b && prefixMatches s t

/-- Search helper for `jsIndexOf`: the first position `≥ i` (counting from
the start of the original string) at which `sub` occurs in the remaining
character list. -/
def indexOfAux (sub : List Char) : List Char → Nat → Option Nat
  | [], i => if prefixMatches sub [] then some i else none
  | c :: t, i =>
    if prefixMatches sub (c :: t) then some i else indexOfAux sub t (i + 1)

/-- JavaScript `s.indexOf(sub)`: the first index at which `sub` occurs in
`s`, and `-1` when it does not occur. -/
def jsIndexOf (s sub : String) : Int :=
  match indexOfAux sub.data s.data 0 with
  | some i => (i : Int)
  | none => -1

/-- The path-filter predicate, from `spawnClangFormat`
(src/unnamed/part_000 lines 235-241): a file is kept iff it ends with some
`includeEndsWith` entry, contains no `excludePathContains` entry
(`indexOf >= 0`), ends with no `excludePathEndsWith` entry, and starts with
no `excludePathStartsWith` entry. -/
def keepFile (cfg : Config) (file : String) : Bool :=
  (cfg.includeEndsWith.any fun s => file.endsWith s) &&
  !(cfg.excludePathContains.any fun s => decide (jsIndexOf file s ≥ 0)) &&
  !(cfg.excludePathEndsWith.any fun s => file.endsWith s) &&
  !(cfg.excludePathStartsWith.any fun s => file.startsWith s)

/-- `files.filter(...)` from `spawnClangFormat`. -/
def filterFiles (cfg : Config) (files : List String) : List String :=
  files.filter (keepFile cfg)

/-- `const chunkSize = 30` from `spawnClangFormat`. -/
def chunkSize : Nat := 30

/-- The chunking loop of `spawnClangFormat`:
`for (i = 0, j = files.length; i < j; i += chunkSize)
   chunks.push(files.slice(i, i + chunkSize))`,
with `files.slice(i, i + chunkSize)` rendered as `(files.drop i).take
chunkSize`. -/
def makeChunks (files : List String) (i : Nat) : List (List String) :=
  if _h : i < files.length then
    ((files.drop i).take chunkSize) :: makeChunks files (i + chunkSize)
  else []
termination_by files.length - i
decreasing_by simp only [chunkSize]; omega

/-- `errorFromExitCode`: the message of the Error object built for a
nonzero formatter exit code. -/
def errorFromExitCode (exitCode : Int) : String :=
  "clang-format exited with exit code " ++ toString exitCode ++ "."

/-- The `async.series` run over the per-chunk tasks of `spawnClangFormat`:
each task spawns the formatter and reports `errorFromExitCode exit` when
its child exits nonzero; the series stops at the first error and hands the
final callback that error, or no error when every child exited 0.  The
argument lists the child processes' exit codes in batch order. -/
def runBatches : List Int → Option String
  | [] => none
  | exit :: rest =>
    if exit != 0 then some (errorFromExitCode exit) else runBatches rest

/-- `queryNoOpenFiles`, parameterised by the output of `git status -s`:
a nonempty (JavaScript-truthy) output makes the launcher exit 2. -/
def queryNoOpenFiles (opened : String) : Option Nat :=
  if opened != "" then some 2 else none

/-- `handleDone` from `main`: an error makes the launcher exit 3; otherwise,
in verify mode (`checkGitStatus`), `queryNoOpenFiles` runs and may exit 2.
Returns the exit code forced by the handler, if any. -/
def handleDone (checkGitStatus : Bool) (opened : String) :
    Option String → Option Nat
  | some _ => some 3
  | none => if checkGitStatus then queryNoOpenFiles opened else none

/-- Whether `handleDone` reaches the `queryNoOpenFiles` call: an error
exits 3 first, so git status is queried only on an error-free run, and only
when `checkGitStatus` was requested. -/
def gitStatusQueried (checkGitStatus : Bool) : Option String → Bool
  | some _ => false
  | none => checkGitStatus

/-- `process.argv.slice(2).filter((_) => _ !== VERIFY_FLAG && _ !== RAW_FLAG)`
from `main`: the passthrough arguments handed to the formatter. -/
def passArgs (argv : List String) : List String :=
  (argv.drop 2).filter fun a => a != VERIFY_FLAG && a != RAW_FLAG

/-- `useRaw` from `main`: `-raw`, or `--version`, or `--help` anywhere in
`process.argv` (each detected by `indexOf(...) !== -1`). -/
def useRawOf (argv : List String) : Bool :=
  argv.contains RAW_FLAG || argv.contains VERSION_FLAG ||
    argv.contains HELP_FLAG

/-- `verify` from `main`. -/
def verifyOf (argv : List String) : Bool :=
  argv.contains VERIFY_FLAG

/-- What `main` decides to launch: a single raw formatter invocation with
the given argument vector, or the batched pipeline with a prepared argument
prefix and the verify (`checkGitStatus`) flag for `handleDone`. -/
inductive Dispatch where
  | raw (args : List String)
  | batched (args : List String) (checkGitStatus : Bool)
deriving Repr, DecidableEq

/-- The argument prefix a `Dispatch` carries. -/
def Dispatch.args : Dispatch → List String
  | .raw a => a
  | .batched a _ => a

/-- The argument-building part of `main` (src/unnamed/part_000 lines
75-125): raw mode passes `passArgs` unmodified; otherwise the mode flags
(`-Werror --dry-run` in verify, `-Werror -i` in fix) are prepended, and a
truthy configured style is prepended ahead of them. -/
def mainPlan (argv : List String) (cfg : Config) : Dispatch :=
  if useRawOf argv then .raw (passArgs argv)
  else
    let args :=
      if verifyOf argv then "-Werror" :: "--dry-run" :: passArgs argv
      else "-Werror" :: "-i" :: passArgs argv
    let args := if cfg.style != "" then cfg.style :: args else args
    .batched args (verifyOf argv)

/-- `args.concat(chunk)` from `spawnClangFormat`: the argument vector of
one batch's formatter child process. -/
def batchArgs (args chunk : List String) : List String :=
  args ++ chunk

/-- Observable result of `spawnSync('git', ...)`. -/
structure SpawnSyncResult where
  status : Int
  stdout : String
  stderr : String
deriving Repr, DecidableEq

/-- The `git` wrapper: trims both streams and reports success iff the
status is 0. -/
structure GitOutput where
  stderr : String
  stdout : String
  success : Bool
deriving Repr, DecidableEq

def git (results : SpawnSyncResult) : GitOutput :=
  if results.status == 0 then
    ⟨results.stderr.trim, results.stdout.trim, true⟩
  else
    ⟨results.stderr.trim, results.stdout.trim, false⟩

/-- `listAllTrackedFiles`: split the trimmed stdout of
`git ls-tree -r --name-only --full-tree HEAD` on newlines when the command
succeeded, and the empty list when it exited nonzero. -/
def listAllTrackedFiles (results : SpawnSyncResult) : List String :=
  let r := git results
  if r.success then r.stdout.splitOn "\n" else []

/-- Result of `getNativeBinary()`: the resolved path, or the thrown error. -/
inductive BinaryResolution where
  | ok (path : String)
  | error (message : String)
deriving Repr, DecidableEq

/-- What one call of `spawnClangFormat` (or its raw sibling) does:
either `done` is invoked immediately with the given argument and nothing
else happens, or the listed formatter argument vectors are spawned and
`done` finally receives the given argument. -/
inductive SpawnResult where
  | earlyDone (doneArg : Option String)
  | ran (argVectors : List (List String)) (doneArg : Option String)
deriving Repr, DecidableEq

/-- The formatter argument vectors a `SpawnResult` launched. -/
def SpawnResult.argVectors : SpawnResult → List (List String)
  | .earlyDone _ => []
  | .ran vs _ => vs

/-- `spawnClangFormat` (src/unnamed/part_000 lines 215-284).  When
`getNativeBinary()` throws, the source runs `setImmediate(done.bind(e))`
and returns: `Function.prototype.bind`'s first parameter is the `this`
value, so the thunk invokes `done` with NO argument — the caught error `e`
is not passed to the completion handler (`earlyDone none`), and no git
listing, filtering or batch is reached.  Otherwise the tracked files are
listed, filtered and chunked, one child per chunk is spawned with
`args.concat(chunk)`, and `done` receives the `async.series` outcome for
the children's exit codes `batchExits`. -/
def spawnClangFormat (binary : BinaryResolution)
    (gitLsTree : SpawnSyncResult) (cfg : Config) (args : List String)
    (batchExits : List Int) : SpawnResult :=
  match binary with
  | .error _ => .earlyDone none
  | .ok _ =>
    let files := filterFiles cfg (listAllTrackedFiles gitLsTree)
    let chunks := makeChunks files 0
    .ran (chunks.map (batchArgs args)) (runBatches batchExits)

/-- `spawnClangFormatRaw`: the same binary resolution (and the same
`done.bind(e)` slip), then a single spawn with exactly `args`; `done`
receives `errorFromExitCode` of a nonzero exit. -/
def spawnClangFormatRaw (binary : BinaryResolution) (args : List String)
    (exit : Int) : SpawnResult :=
  match binary with
  | .error _ => .earlyDone none
  | .ok _ =>
    .ran [args] (if exit != 0 then some (errorFromExitCode exit) else none)

/-! ## Correctness of the string-search model -/

theorem prefixMatches_iff :
    ∀ (sub l : List Char), prefixMatches sub l = true ↔ sub <+: l
  | [], l => by simp [prefixMatches]
  | a :: s, [] => by simp [prefixMatches]
  | a :: s, b :: t => by
    simp [prefixMatches, prefixMatches_iff s t, List.cons_prefix_cons]

/-- `indexOfAux` finds something exactly when `sub` occurs somewhere in `l`,
i.e. when `sub` is a prefix of some tail of `l` — position 0 included. -/
theorem indexOfAux_isSome (sub : List Char) :
    ∀ (l : List Char) (i : Nat),
      (indexOfAux sub l i).isSome = true ↔ ∃ j, sub <+: l.drop j
  | [], i => by
    simp only [indexOfAux, List.drop_nil]
    split <;> rename_i hp
    · simp only [Option.isSome_some, true_iff]
      exact ⟨0, (prefixMatches_iff sub []).mp hp⟩
    · simp only [Option.isSome_none, Bool.false_eq_true, false_iff, not_exists]
      intro j hj
      exact hp ((prefixMatches_iff sub []).mpr hj)
  | c :: t, i => by
    simp only [indexOfAux]
    split <;> rename_i hp
    · simp only [Option.isSome_some, true_iff]
      exact ⟨0, by simpa using (prefixMatches_iff sub (c :: t)).mp hp⟩
    · rw [indexOfAux_isSome sub t (i + 1)]
      constructor
      · rintro ⟨j, hj⟩
        exact ⟨j + 1, by simpa using hj⟩
      · rintro ⟨j, hj⟩
        match j with
        | 0 =>
          exact absurd ((prefixMatches_iff sub (c :: t)).mpr (by simpa using hj))
            (by simpa using hp)
        | j + 1 => exact ⟨j, by simpa using hj⟩

/-- `s.indexOf(sub) >= 0` holds exactly when `sub` occurs in `s` at some
index, index 0 included. -/
theorem jsIndexOf_nonneg_iff (s sub : String) :
    0 ≤ jsIndexOf s sub ↔ ∃ j, sub.data <+: s.data.drop j := by
  rw [← indexOfAux_isSome sub.data s.data 0]
  unfold jsIndexOf
  cases h : indexOfAux sub.data s.data 0 <;> simp [h]

/-- The retained-path predicate, spelled out: the `keepFile` test of the
source holds exactly when the path ends in an included suffix, contains no
excluded substring at any position (position 0 included), ends in no
excluded suffix and starts with no excluded prefix. -/
theorem keepFile_iff (cfg : Config) (file : String) :
    keepFile cfg file = true ↔
      (∃ s ∈ cfg.includeEndsWith, file.endsWith s = true) ∧
      (∀ s ∈ cfg.excludePathContains, ¬ ∃ j, s.data <+: file.data.drop j) ∧
      (∀ s ∈ cfg.excludePathEndsWith, file.endsWith s = false) ∧
      (∀ s ∈ cfg.excludePathStartsWith, file.startsWith s = false) := by
  simp only [keepFile, Bool.and_eq_true, Bool.not_eq_true', List.any_eq_false,
    List.any_eq_true, decide_eq_true_eq, decide_eq_false_iff_not, ge_iff_le,
    jsIndexOf_nonneg_iff, Bool.not_eq_true]
  tauto

/-! ## Claims about the path filter -/

/-- C1: for every list of path strings and every filter-rule record, the
path filter retains a path iff it ends with at least one `includeEndsWith`
string, contains no `excludePathContains` string at any index (index 0
included), ends with no `excludePathEndsWith` string, and starts with no
`excludePathStartsWith` string; and with an empty `includeEndsWith` no path
is retained. -/
theorem filterFiles_mem_iff (cfg : Config) (files : List String)
    (file : String) :
    (file ∈ filterFiles cfg files ↔
      file ∈ files ∧
      (∃ s ∈ cfg.includeEndsWith, file.endsWith s = true) ∧
      (∀ s ∈ cfg.excludePathContains, ¬ ∃ j, s.data <+: file.data.drop j) ∧
      (∀ s ∈ cfg.excludePathEndsWith, file.endsWith s = false) ∧
      (∀ s ∈ cfg.excludePathStartsWith, file.startsWith s = false)) ∧
    filterFiles { cfg with includeEndsWith := [] } files = [] := by
  constructor
  · rw [filterFiles, List.mem_filter, keepFile_iff]
  · rw [filterFiles, List.filter_eq_nil_iff]
    intro a _
    simp [keepFile]

/-- C9: the path filter preserves relative order (its output is a sublist
of its input) and is idempotent. -/
theorem filterFiles_sublist_idem (cfg : Config) (files : List String) :
    (filterFiles cfg files).Sublist files ∧
    filterFiles cfg (filterFiles cfg files) = filterFiles cfg files := by
  refine ⟨List.filter_sublist files, ?_⟩
  simp [filterFiles, List.filter_filter]

/-! ## Claims about batching -/

theorem makeChunks_flatten (files : List String) (i : Nat) :
    (makeChunks files i).flatten = files.drop i := by
  rw [makeChunks]
  split
  · rename_i h
    rw [List.flatten_cons, makeChunks_flatten files (i + chunkSize)]
    rw [show files.drop (i + chunkSize) = (files.drop i).drop chunkSize by
      rw [List.drop_drop]]
    exact List.take_append_drop _ _
  · rename_i h
    simp only [List.flatten_nil]
    rw [List.drop_eq_nil_of_le (by omega)]
termination_by files.length - i
decreasing_by simp only [chunkSize]; omega

theorem makeChunks_length (files : List String) (i : Nat) :
    (makeChunks files i).length = (files.length - i + chunkSize - 1) / chunkSize := by
  rw [makeChunks]
  split
  · rename_i h
    rw [List.length_cons, makeChunks_length files (i + chunkSize)]
    simp only [chunkSize] at *
    omega
  · rename_i h
    simp only [List.length_nil, chunkSize]
    omega
termination_by files.length - i
decreasing_by simp only [chunkSize]; omega

theorem makeChunks_sizes (files : List String) (i : Nat) :
    ∀ c ∈ makeChunks files i, c.length ≤ chunkSize := by
  rw [makeChunks]
  split
  · rename_i h
    intro c hc
    rcases List.mem_cons.mp hc with hc | hc
    · subst hc; simp
    · exact makeChunks_sizes files (i + chunkSize) c hc
  · intro c hc
    simp at hc
termination_by files.length - i
decreasing_by simp only [chunkSize]; omega

/-- C4: for a file list of length N and the fixed batch size 30, the
chunking loop produces exactly `⌈N/30⌉ = (N + 29) / 30` batches, their
in-order concatenation is the original list (so each file lies in exactly
one batch and insertion order is preserved), and no batch holds more than
30 files. -/
theorem makeChunks_spec (files : List String) :
    (makeChunks files 0).length = (files.length + 29) / 30 ∧
    (makeChunks files 0).flatten = files ∧
    ∀ c ∈ makeChunks files 0, c.length ≤ 30 := by
  refine ⟨?_, ?_, ?_⟩
  · rw [makeChunks_length files 0]
    simp [chunkSize]
  · rw [makeChunks_flatten files 0, List.drop_zero]
  · simpa [chunkSize] using makeChunks_sizes files 0

/-! ## Claims about run aggregation and exit codes -/

theorem runBatches_eq_none_iff :
    ∀ exits : List Int, runBatches exits = none ↔ ∀ e ∈ exits, e = 0
  | [] => by simp [runBatches]
  | e :: rest => by
    by_cases he : e = 0
    · subst he
      simp [runBatches, runBatches_eq_none_iff rest]
    · simp [runBatches, he]

/-- C2: the aggregate run result is success (the `async.series` outcome
carries no error) iff every batch's child process exited 0; as soon as some
batch exits nonzero, `handleDone` terminates the launcher with exit code 3,
whatever the other batches did. -/
theorem aggregateResult_spec (exits : List Int) (checkGitStatus : Bool)
    (opened : String) :
    (runBatches exits = none ↔ ∀ e ∈ exits, e = 0) ∧
    ((∃ e ∈ exits, e ≠ 0) →
      handleDone checkGitStatus opened (runBatches exits) = some 3) := by
  refine ⟨runBatches_eq_none_iff exits, ?_⟩
  rintro ⟨e, he, hne⟩
  cases h : runBatches exits with
  | none => exact absurd ((runBatches_eq_none_iff exits).mp h e he) hne
  | some msg => simp [handleDone]

/-- C6: in verify mode the launcher reaches the `git status -s` query
(`queryNoOpenFiles`) exactly when every batch succeeded; a nonempty status
output then forces exit code 2, an empty one exits nothing, and with an
empty status output exit code 2 is impossible. -/
theorem verifyGitStatus_spec (exits : List Int) (opened : String) :
    (gitStatusQueried true (runBatches exits) = true ↔ ∀ e ∈ exits, e = 0) ∧
    ((∀ e ∈ exits, e = 0) → opened ≠ "" →
      handleDone true opened (runBatches exits) = some 2) ∧
    ((∀ e ∈ exits, e = 0) → opened = "" →
      handleDone true opened (runBatches exits) = none) ∧
    (opened = "" → handleDone true opened (runBatches exits) ≠ some 2) := by
  refine ⟨?_, ?_, ?_, ?_⟩
  · cases h : runBatches exits with
    | none => simpa [gitStatusQueried] using (runBatches_eq_none_iff exits).mp h
    | some msg =>
      simp only [gitStatusQueried, Bool.false_eq_true, false_iff]
      intro hall
      exact absurd ((runBatches_eq_none_iff exits).mpr hall) (by simp [h])
  · intro hall hne
    rw [(runBatches_eq_none_iff exits).mpr hall]
    simp [handleDone, queryNoOpenFiles, hne]
  · intro hall hemp
    rw [(runBatches_eq_none_iff exits).mpr hall]
    simp [handleDone, queryNoOpenFiles, hemp]
  · intro hemp
    cases h : runBatches exits with
    | none => simp [handleDone, queryNoOpenFiles, hemp]
    | some msg => simp [handleDone]

/-! ## Claims about mode selection and argument building -/

/-- C3: a `-raw` or `--version` anywhere in the argument list puts the
launcher in raw mode: the plan is a raw dispatch whose argument vector is
exactly the passthrough arguments, it does not depend on any configuration
(none is loaded), and the raw spawn hands the formatter exactly that vector
— no file discovery, no filtering, no file paths appended. -/
theorem rawMode_spec (argv : List String) (cfg cfg' : Config)
    (h : argv.contains RAW_FLAG = true ∨ argv.contains VERSION_FLAG = true) :
    mainPlan argv cfg = .raw (passArgs argv) ∧
    mainPlan argv cfg = mainPlan argv cfg' ∧
    ∀ (path : String) (exit : Int),
      (spawnClangFormatRaw (.ok path) (passArgs argv) exit).argVectors =
        [passArgs argv] := by
  have hr : useRawOf argv = true := by
    rcases h with h | h <;> simp at h <;> simp [useRawOf, h]
  refine ⟨by simp [mainPlan, hr], by simp [mainPlan, hr], ?_⟩
  intro path exit
  simp [spawnClangFormatRaw, SpawnResult.argVectors]

theorem rawMode_spec_witness :
    mainPlan ["node", "cli", "--version"]
        ⟨[".h"], [], [], [], "/repo", "--style=file"⟩ =
      .raw ["--version"] ∧
    mainPlan ["node", "cli", "--version"]
        ⟨[".h"], [], [], [], "/repo", "--style=file"⟩ =
      mainPlan ["node", "cli", "--version"] ⟨[], [], [], [], "", ""⟩ ∧
    ∀ (path : String) (exit : Int),
      (spawnClangFormatRaw (.ok path) ["--version"] exit).argVectors =
        [["--version"]] := by
  have h := rawMode_spec ["node", "cli", "--version"]
    ⟨[".h"], [], [], [], "/repo", "--style=file"⟩ ⟨[], [], [], [], "", ""⟩
    (Or.inr (by decide))
  simpa [passArgs, VERIFY_FLAG, RAW_FLAG] using h

/-- C5: in verify mode (verify flag present, no raw trigger) the argument
vector handed to each batch's formatter process is exactly the configured
style argument (when nonempty) first, then `-Werror` and `--dry-run`, then
the user's passthrough arguments, then the batch's file paths. -/
theorem verifyMode_args (argv : List String) (cfg : Config)
    (chunk : List String)
    (hv : argv.contains VERIFY_FLAG = true) (hr : useRawOf argv = false) :
    mainPlan argv cfg =
      .batched ((if cfg.style != "" then [cfg.style] else []) ++
        "-Werror" :: "--dry-run" :: passArgs argv) true ∧
    batchArgs (mainPlan argv cfg).args chunk =
      (if cfg.style != "" then [cfg.style] else []) ++
        "-Werror" :: "--dry-run" :: (passArgs argv ++ chunk) := by
  have hmain : mainPlan argv cfg =
      .batched ((if cfg.style != "" then [cfg.style] else []) ++
        "-Werror" :: "--dry-run" :: passArgs argv) true := by
    have hv' : VERIFY_FLAG ∈ argv := by simpa using hv
    by_cases hs : cfg.style = ""
    · simp [mainPlan, hr, verifyOf, hv', hs]
    · simp [mainPlan, hr, verifyOf, hv', hs]
  refine ⟨hmain, ?_⟩
  rw [hmain]
  simp [batchArgs, Dispatch.args]

theorem verifyMode_args_witness :
    mainPlan ["node", "cli", "-verify", "extra"]
        ⟨[".h"], [], [], [], "/repo", "--style=file"⟩ =
      .batched ["--style=file", "-Werror", "--dry-run", "extra"] true ∧
    batchArgs (mainPlan ["node", "cli", "-verify", "extra"]
        ⟨[".h"], [], [], [], "/repo", "--style=file"⟩).args ["a.h", "b.cpp"] =
      ["--style=file", "-Werror", "--dry-run", "extra", "a.h", "b.cpp"] := by
  have h := verifyMode_args ["node", "cli", "-verify", "extra"]
    ⟨[".h"], [], [], [], "/repo", "--style=file"⟩ ["a.h", "b.cpp"]
    (by decide) (by decide)
  simpa [passArgs, VERIFY_FLAG, RAW_FLAG] using h

/-! ## Claims about external-process failure handling -/

/-- C7: when the `git ls-tree` command exits nonzero, `listAllTrackedFiles`
returns the empty list (no error is raised — the function is total and
merely degrades), so the run filters an empty list and launches zero
batches. -/
theorem listAllTrackedFiles_failure (results : SpawnSyncResult)
    (cfg : Config) (h : results.status ≠ 0) :
    listAllTrackedFiles results = [] ∧
    filterFiles cfg (listAllTrackedFiles results) = [] ∧
    makeChunks (filterFiles cfg (listAllTrackedFiles results)) 0 = [] := by
  have hb : (results.status == 0) = false := by simp [h]
  have hl : listAllTrackedFiles results = [] := by
    simp [listAllTrackedFiles, git, hb]
  refine ⟨hl, ?_, ?_⟩
  · rw [hl]; rfl
  · rw [hl]
    rw [show filterFiles cfg [] = [] from rfl, makeChunks]
    simp

theorem listAllTrackedFiles_failure_witness :
    listAllTrackedFiles ⟨128, "", "fatal: not a git repository"⟩ = [] ∧
    filterFiles ⟨[".h", ".cpp"], [], [".g.h"], [], "/repo", "--style=file"⟩
        (listAllTrackedFiles ⟨128, "", "fatal: not a git repository"⟩) = [] ∧
    makeChunks (filterFiles
        ⟨[".h", ".cpp"], [], [".g.h"], [], "/repo", "--style=file"⟩
        (listAllTrackedFiles ⟨128, "", "fatal: not a git repository"⟩)) 0 =
      [] :=
  listAllTrackedFiles_failure ⟨128, "", "fatal: not a git repository"⟩
    ⟨[".h", ".cpp"], [], [".g.h"], [], "/repo", "--style=file"⟩ (by decide)

/-- C8 (code bug): when `getNativeBinary()` throws, no git listing,
filtering or batch launch happens — the spawn result is `earlyDone` with
zero argument vectors for every git result, configuration and argument
list.  But the source's `setImmediate(done.bind(e))` invokes the completion
handler with NO argument (`Function.prototype.bind`'s first parameter is
the `this` value, not a call argument), so the handler receives `none`
rather than the caught error object, and — contrary to the spec — never
takes the error path: exit code 3 is impossible on this path. -/
theorem binaryResolutionFailure_spec (msg : String)
    (gitLsTree : SpawnSyncResult) (cfg : Config) (args : List String)
    (batchExits : List Int) (checkGitStatus : Bool) :
    spawnClangFormat (.error msg) gitLsTree cfg args batchExits =
      .earlyDone none ∧
    (spawnClangFormat (.error msg) gitLsTree cfg args batchExits).argVectors
      = [] ∧
    ∀ opened, handleDone checkGitStatus opened none ≠ some 3 := by
  refine ⟨rfl, rfl, ?_⟩
  intro opened
  cases checkGitStatus
  · simp [handleDone]
  · simp only [handleDone, queryNoOpenFiles]
    split <;> simp

/-- C10: the passthrough vector is `argv` from position 2 on with exactly
the literal `-verify` and `-raw` occurrences removed: it is an in-order
sublist of `argv.drop 2`, every `-verify`/`-raw` occurrence is gone, and
every other argument (`--verbose` and `--help` included) keeps its exact
multiplicity. -/
theorem passArgs_spec (argv : List String) :
    (passArgs argv).Sublist (argv.drop 2) ∧
    ∀ a : String, (passArgs argv).count a =
      if a = VERIFY_FLAG ∨ a = RAW_FLAG then 0
      else (argv.drop 2).count a := by
  refine ⟨List.filter_sublist _, ?_⟩
  intro a
  by_cases h : a = VERIFY_FLAG ∨ a = RAW_FLAG
  · rw [if_pos h, List.count_eq_zero]
    intro hmem
    have hkeep := (List.mem_filter.mp hmem).2
    rcases h with h | h <;> subst h <;> simp at hkeep
  · rw [if_neg h]
    push_neg at h
    exact List.count_filter (by simp [h.1, h.2])

end ClangFormatLauncher
